import Mathlib

/-
Verification of the dl repository: a shallow embedding of src/models.py and
src/training.py into Lean, followed by theorems settling the specification
claims about attention masking, transformer block composition, decoder stack
structure, the autoregressive sampler and the training loop bookkeeping.

Tensor values are modelled over the real numbers; a batch dimension of size
one is dropped throughout, so a hidden-state tensor (1, T, D) becomes a
function from positions to feature vectors.  All model-level claims concern
inference mode, in which torch.nn.Dropout is the identity map.
-/

noncomputable section

/-- Feature vector of width n. -/
abbrev Vec (n : ℕ) := Fin n → ℝ

/-- Hidden-state tensor for one batch element: T positions, n features. -/
abbrev Mat (T n : ℕ) := Fin T → Fin n → ℝ

/-- Forward pass of torch.nn.Linear with bias: weight matrix applied to the
input vector, plus the bias vector. -/
def linearF {i o : ℕ} (W : Fin o → Fin i → ℝ) (b : Vec o) (v : Vec i) : Vec o :=
  fun j => (∑ k, W j k * v k) + b j

/-- Dropout in inference (eval) mode: torch.nn.Dropout passes its input
through unchanged.  Every model-level claim is stated for inference mode. -/
def dropoutEval {α : Type} (x : α) : α := x

/-- torch.nn.ReLU. -/
def relu (x : ℝ) : ℝ := max 0 x

/-- Gauss error function, used by the exact (default) form of torch.nn.GELU. -/
def erf (x : ℝ) : ℝ :=
  (2 / Real.sqrt Real.pi) * ∫ t in (0:ℝ)..x, Real.exp (-(t ^ 2))

/-- torch.nn.GELU with its default exact formulation. -/
def gelu (x : ℝ) : ℝ := x * (1 + erf (x / Real.sqrt 2)) / 2

/-- Row-wise softmax over a finite logit vector (torch.nn.functional.softmax
along the last dimension, for a row with no masked entries). -/
def softmax {n : ℕ} (v : Vec n) : Vec n :=
  fun i => Real.exp (v i) / ∑ j, Real.exp (v j)

/-- Numerical-stability epsilon used by every normalization layer in the
source (1e-5). -/
def lnEps : ℝ := 1 / 100000

/-- Mean of a feature vector across the feature dimension. -/
def lnMean {n : ℕ} (v : Vec n) : ℝ := (∑ i, v i) / n

/-- Biased variance of a feature vector across the feature dimension, as used
by torch.nn.functional.layer_norm. -/
def lnVar {n : ℕ} (v : Vec n) : ℝ := (∑ i, (v i - lnMean v) ^ 2) / n

/-- torch.nn.functional.layer_norm over the feature dimension with learned
per-feature scale w and an optional per-feature additive bias b: the input is
normalized to zero mean and unit variance (with epsilon 1e-5), scaled, and
the bias is added only when present.  A None bias performs no addition. -/
def layerNormOpt {n : ℕ} (w : Vec n) (b : Option (Vec n)) (v : Vec n) : Vec n :=
  fun i =>
    let nrm := (v i - lnMean v) / Real.sqrt (lnVar v + lnEps)
    match b with
    | none => w i * nrm
    | some bv => w i * nrm + bv i

/-- torch.nn.LayerNorm, whose affine parameters are always present. -/
def layerNormAffine {n : ℕ} (w b : Vec n) (v : Vec n) : Vec n :=
  layerNormOpt w (some b) v

/-- Parameters of the custom LayerNorm module of src/models.py (lines
135-144): a learned weight and an optional learned bias. -/
structure LayerNormParams (n : ℕ) where
  weight : Vec n
  bias : Option (Vec n)

/-- Constructor of the custom LayerNorm module (lines 138-141): the weight is
initialized to ones; the bias is a zero vector when enabled and entirely
absent (None) when disabled. -/
def LayerNorm.construct (ndim : ℕ) (bias : Bool) : LayerNormParams ndim :=
  { weight := fun _ => 1
    bias := if bias then some (fun _ => 0) else none }

/-- Forward pass of the custom LayerNorm module (lines 143-144):
F.layer_norm with the stored weight, the optional stored bias, and epsilon
1e-5. -/
def LayerNorm.forward {n : ℕ} (p : LayerNormParams n) (v : Vec n) : Vec n :=
  layerNormOpt p.weight p.bias v

/-- Parameters of one attention head (src/models.py lines 175-196): the
bias-free key, query and value projections from width D to width hs. -/
structure HeadParams (D hs : ℕ) where
  key : Fin hs → Fin D → ℝ
  query : Fin hs → Fin D → ℝ
  value : Fin hs → Fin D → ℝ

/-- Precomputed causal mask buffer torch.tril(torch.ones(bs, bs)) registered
at Head construction (line 183). -/
def tril (bs : ℕ) : Fin bs → Fin bs → ℝ :=
  fun i j => if (j : ℕ) ≤ (i : ℕ) then 1 else 0

/-- The slice tril[:T, :T] of the precomputed mask, taken inside
Head.forward (line 191); defined whenever T does not exceed the mask
extent bs. -/
def trilSlice (bs T : ℕ) (hT : T ≤ bs) : Fin T → Fin T → ℝ :=
  fun i j => tril bs ⟨i.val, lt_of_lt_of_le i.isLt hT⟩ ⟨j.val, lt_of_lt_of_le j.isLt hT⟩

/-- Exponential extended to masked attention scores: masked_fill sets masked
entries to minus infinity (represented here by none), whose exponential
under softmax is exactly 0. -/
def expMasked : Option ℝ → ℝ
  | none => 0
  | some r => Real.exp r

/-- Scaled dot-product scores of one head (lines 188-190): bias-free query
and key projections and the similarity matrix q times k transposed, scaled
by head_size to the power -0.5. -/
def Head.scores {T D hs : ℕ} (p : HeadParams D hs) (x : Mat T D) :
    Fin T → Fin T → ℝ :=
  let k := fun t j => ∑ d, p.key j d * x t d
  let q := fun t j => ∑ d, p.query j d * x t d
  fun i j => (∑ h, q i h * k j h) * ((hs : ℝ) ^ (-(1/2 : ℝ)))

/-- The scores after masked_fill (line 191): entries where the sliced causal
mask is 0 become minus infinity (none). -/
def Head.masked {T bs D hs : ℕ} (hT : T ≤ bs) (p : HeadParams D hs) (x : Mat T D) :
    Fin T → Fin T → Option ℝ :=
  fun i j => if trilSlice bs T hT i j = 0 then none else some (Head.scores p x i j)

/-- Attention weight matrix of one head before dropout (lines 186-192):
row-wise softmax of the masked scores. -/
def Head.wei {T bs D hs : ℕ} (hT : T ≤ bs) (p : HeadParams D hs) (x : Mat T D) :
    Fin T → Fin T → ℝ :=
  fun i j => expMasked (Head.masked hT p x i j) / ∑ j2, expMasked (Head.masked hT p x i j2)

/-- Forward pass of one attention head in inference mode (lines 186-196):
the (dropout-inactive) attention weights aggregate the value projections. -/
def Head.forward {T bs D hs : ℕ} (hT : T ≤ bs) (p : HeadParams D hs) (x : Mat T D) :
    Mat T hs :=
  let wei := dropoutEval (Head.wei hT p x)
  let v := fun t j => ∑ d, p.value j d * x t d
  fun t h => ∑ j, wei t j * v j h

/-- Parameters of MultiHeadAttention (lines 199-212) for a model whose
embedding width is H * hs: H heads of size hs plus the output projection. -/
structure MultiHeadAttentionParams (H hs : ℕ) where
  heads : Fin H → HeadParams (H * hs) hs
  projW : Fin (H * hs) → Fin (H * hs) → ℝ
  projB : Vec (H * hs)

/-- torch.cat of the per-head outputs along the feature dimension (line
209): column d of the concatenation comes from head d / hs at inner feature
d % hs. -/
def concatHeads {T H hs : ℕ} (outs : Fin H → Mat T hs) : Mat T (H * hs) :=
  fun t d =>
    have hpos : 0 < H * hs := d.pos
    have hhs : 0 < hs := by
      rcases Nat.eq_zero_or_pos hs with h0 | h0
      · simp [h0] at hpos
      · exact h0
    outs ⟨d.val / hs, (Nat.div_lt_iff_lt_mul hhs).mpr d.isLt⟩ t
      ⟨d.val % hs, Nat.mod_lt _ hhs⟩

/-- Forward pass of MultiHeadAttention in inference mode (lines 208-212):
run the heads, concatenate, project, dropout (inactive). -/
def MultiHeadAttention.forward {T bs H hs : ℕ} (hT : T ≤ bs)
    (p : MultiHeadAttentionParams H hs) (x : Mat T (H * hs)) : Mat T (H * hs) :=
  let out := concatHeads (fun h => Head.forward hT (p.heads h) x)
  dropoutEval (fun t => linearF p.projW p.projB (out t))

/-- Parameters of the two-layer position-wise feed-forward networks (lines
147-172): expansion from D to 4 * D and back. -/
structure FeedFowardParams (D : ℕ) where
  W1 : Fin (4 * D) → Fin D → ℝ
  b1 : Vec (4 * D)
  W2 : Fin D → Fin (4 * D) → ℝ
  b2 : Vec D

/-- Forward pass of FeedFoward (ReLU variant, lines 161-172), inference
mode. -/
def FeedFoward.forward {D : ℕ} (p : FeedFowardParams D) (v : Vec D) : Vec D :=
  dropoutEval (linearF p.W2 p.b2 (fun j => relu (linearF p.W1 p.b1 v j)))

/-- Forward pass of FeedFowardGPT2 (GELU variant, lines 147-158), inference
mode. -/
def FeedFowardGPT2.forward {D : ℕ} (p : FeedFowardParams D) (v : Vec D) : Vec D :=
  dropoutEval (linearF p.W2 p.b2 (fun j => gelu (linearF p.W1 p.b1 v j)))

/-- Application of a per-position layer (normalization or feed-forward) to
every position of a hidden-state tensor. -/
def mapPos {T n : ℕ} (f : Vec n → Vec n) (x : Mat T n) : Mat T n :=
  fun t => f (x t)

/-- Parameters of Block and of BlockGPT1 (lines 214-247).  Both classes hold
a MultiHeadAttention (named sa resp. multi_head in the source), a FeedFoward
and two torch.nn.LayerNorm layers; they differ only in their forward
composition. -/
structure BlockParams (H hs : ℕ) where
  sa : MultiHeadAttentionParams H hs
  ffwd : FeedFowardParams (H * hs)
  ln1w : Vec (H * hs)
  ln1b : Vec (H * hs)
  ln2w : Vec (H * hs)
  ln2b : Vec (H * hs)

/-- Parameters of BlockGPT2 (lines 250-263): multi-head attention, the GELU
feed-forward, and two bias-optional LayerNorm layers. -/
structure BlockGPT2Params (H hs : ℕ) where
  sa : MultiHeadAttentionParams H hs
  ffwd : FeedFowardParams (H * hs)
  ln1 : LayerNormParams (H * hs)
  ln2 : LayerNormParams (H * hs)

/-- Forward pass of Block (lines 227-230), inference mode:
x = x + sa(ln1(x)); x = x + ffwd(ln2(x)). -/
def Block.forward {T bs H hs : ℕ} (hT : T ≤ bs) (p : BlockParams H hs)
    (x : Mat T (H * hs)) : Mat T (H * hs) :=
  let x1 := x + MultiHeadAttention.forward hT p.sa
    (mapPos (layerNormAffine p.ln1w p.ln1b) x)
  x1 + mapPos (FeedFoward.forward p.ffwd) (mapPos (layerNormAffine p.ln2w p.ln2b) x1)

/-- Forward pass of BlockGPT1 (lines 242-247), inference mode:
x = multi_head(x) + x; x = ln1(x); x = ffwd(x) + x; x = ln2(x). -/
def BlockGPT1.forward {T bs H hs : ℕ} (hT : T ≤ bs) (p : BlockParams H hs)
    (x : Mat T (H * hs)) : Mat T (H * hs) :=
  let x1 := MultiHeadAttention.forward hT p.sa x + x
  let x2 := mapPos (layerNormAffine p.ln1w p.ln1b) x1
  let x3 := mapPos (FeedFoward.forward p.ffwd) x2 + x2
  mapPos (layerNormAffine p.ln2w p.ln2b) x3

/-- Forward pass of BlockGPT2 (lines 260-263), inference mode:
x = x + multi_head(ln1(x)); x = x + ffwd(ln2(x)), with the bias-optional
LayerNorm and the GELU feed-forward. -/
def BlockGPT2.forward {T bs H hs : ℕ} (hT : T ≤ bs) (p : BlockGPT2Params H hs)
    (x : Mat T (H * hs)) : Mat T (H * hs) :=
  let x1 := x + MultiHeadAttention.forward hT p.sa (mapPos (LayerNorm.forward p.ln1) x)
  x1 + mapPos (FeedFowardGPT2.forward p.ffwd) (mapPos (LayerNorm.forward p.ln2) x1)

/-- Token plus position embedding shared by the decoder stacks (lines 87-90,
106-109, 126-129): embedding-table lookup for each token id plus the
position embedding of the fresh indices 0..T-1.  Token ids are elements of
Fin V because an id outside the vocabulary is a fatal embedding-lookup
failure; T ≤ C keeps every position index inside the position table. -/
def tokPosEmbed {T V C D : ℕ} (hT : T ≤ C) (tok : Fin V → Vec D)
    (pos : Fin C → Vec D) (idx : Fin T → Fin V) : Mat T D :=
  fun t => tok (idx t) + pos ⟨t.val, lt_of_lt_of_le t.isLt hT⟩

/-- Parameters of simpleGPT (lines 76-93): embedding tables, the Block
stack, the final LayerNorm ln_f constructed at line 82, and the vocabulary
projection lm_head.  The embedding width is H * hs. -/
structure SimpleGPTParams (V C H hs : ℕ) where
  tok : Fin V → Vec (H * hs)
  pos : Fin C → Vec (H * hs)
  blocks : List (BlockParams H hs)
  lnFw : Vec (H * hs)
  lnFb : Vec (H * hs)
  lmW : Fin V → Fin (H * hs) → ℝ
  lmB : Vec V

/-- Forward pass of simpleGPT (lines 86-93), inference mode: embedding,
block stack, vocabulary projection.  The source forward never references
self.ln_f, so the fields lnFw and lnFb do not occur on the right-hand
side. -/
def simpleGPT.forward {T V C H hs : ℕ} (hT : T ≤ C) (p : SimpleGPTParams V C H hs)
    (idx : Fin T → Fin V) : Fin T → Vec V :=
  let x0 := tokPosEmbed hT p.tok p.pos idx
  let xN := p.blocks.foldl (fun acc bp => Block.forward hT bp acc) x0
  fun t => linearF p.lmW p.lmB (xN t)

/-- Parameters of GPT2 (lines 115-132): embedding tables, the BlockGPT2
stack and the vocabulary projection.  The constructor creates no final
normalization layer. -/
structure GPT2Params (V C H hs : ℕ) where
  tok : Fin V → Vec (H * hs)
  pos : Fin C → Vec (H * hs)
  blocks : List (BlockGPT2Params H hs)
  lmW : Fin V → Fin (H * hs) → ℝ
  lmB : Vec V

/-- The embedding, input dropout and block stack of GPT2.forward (lines
126-130), inference mode: everything before the vocabulary projection. -/
def GPT2.blocksOut {T V C H hs : ℕ} (hT : T ≤ C) (p : GPT2Params V C H hs)
    (idx : Fin T → Fin V) : Mat T (H * hs) :=
  let x0 := dropoutEval (tokPosEmbed hT p.tok p.pos idx)
  p.blocks.foldl (fun acc bp => BlockGPT2.forward hT bp acc) x0

/-- Forward pass of GPT2 (lines 125-132), inference mode: embedding, input
dropout, block stack, and directly the vocabulary projection lm_head. -/
def GPT2.forward {T V C H hs : ℕ} (hT : T ≤ C) (p : GPT2Params V C H hs)
    (idx : Fin T → Fin V) : Fin T → Vec V :=
  fun t => linearF p.lmW p.lmB (GPT2.blocksOut hT p idx t)

/-- Python slice idx[:, -b:] used at line 272: the most recent b tokens,
except that a block_size of 0 yields the whole sequence because -0 is 0 in
Python; a None block_size (line 269-270) performs no truncation at all. -/
def truncCond (blockSize : Option ℕ) (idx : List ℕ) : List ℕ :=
  match blockSize with
  | none => idx
  | some b => if b = 0 then idx else idx.drop (idx.length - b)

open Classical in
/-- torch.multinomial with num_samples=1 over the probability vector p,
driven by one uniform draw r in the unit interval: the smallest index whose
cumulative probability strictly exceeds r, or the largest index when none
does.  Its result is by construction an index below V. -/
def multinomial {V : ℕ} (hV : 0 < V) (p : Vec V) (r : ℝ) : Fin V :=
  let s := Finset.univ.filter (fun i : Fin V => r < ∑ j ∈ Finset.univ.filter (· ≤ i), p j)
  if h : s.Nonempty then s.min' h else ⟨V - 1, by omega⟩

/-- The sampling loop of generate (lines 266-278) in inference mode,
unrolled over the remaining iteration count: per iteration the current
sequence is truncated by truncCond, the model produces one logit row per
position, the last row (logits[:, -1, :]) is selected, converted by softmax
and sampled from by multinomial, and the drawn id is appended.  The first
component is the final sequence, or none when the last-row lookup fails
because the model output was empty (the IndexError raised by logits[:, -1,
:] on a length-0 time dimension).  The second component records every
sequence the model was invoked on.  The counter t indexes the stream rand
of uniform draws consumed by multinomial. -/
def generateAux {V : ℕ} (hV : 0 < V) (model : List ℕ → List (Vec V))
    (blockSize : Option ℕ) (rand : ℕ → ℝ) :
    ℕ → ℕ → List ℕ → Option (List ℕ) × List (List ℕ)
  | 0, _, idx => (some idx, [])
  | n + 1, t, idx =>
    let cond := truncCond blockSize idx
    match (model cond).getLast? with
    | none => (none, [cond])
    | some logits =>
      let nxt := multinomial hV (softmax logits) (rand t)
      let rest := generateAux hV model blockSize rand n (t + 1) (idx ++ [nxt.val])
      (rest.1, cond :: rest.2)

/-- Result of generate (lines 266-278): the extended sequence, or none when
the sampler fails on an empty model output. -/
def generate {V : ℕ} (hV : 0 < V) (model : List ℕ → List (Vec V))
    (blockSize : Option ℕ) (rand : ℕ → ℝ) (idx : List ℕ)
    (maxNewTokens : ℕ) : Option (List ℕ) :=
  (generateAux hV model blockSize rand maxNewTokens 0 idx).1

/-- The sequences that generate (lines 266-278) passes to the model, in
order of invocation. -/
def generateCalls {V : ℕ} (hV : 0 < V) (model : List ℕ → List (Vec V))
    (blockSize : Option ℕ) (rand : ℕ → ℝ) (idx : List ℕ)
    (maxNewTokens : ℕ) : List (List ℕ) :=
  (generateAux hV model blockSize rand maxNewTokens 0 idx).2

/-
Shape-level model of layer construction and of the tensor shapes flowing
through the forward passes.  Claim C3 is about when construction fails, so
this part of the embedding records, for each layer, the constructor
behaviour of the source (which performs no divisibility validation) and the
last-dimension shape check torch performs when the layer is applied.
-/

/-- Shape of a torch.nn.Linear layer: its in-features and out-features. -/
structure LinearShape where
  inF : ℕ
  outF : ℕ
  deriving DecidableEq

/-- Applying a Linear layer to a tensor whose last dimension is w: torch
raises a shape error unless w equals the in-features. -/
def LinearShape.apply (l : LinearShape) (w : ℕ) : Option ℕ :=
  if w = l.inF then some l.outF else none

/-- Shape of a Head module: three Linear layers and the mask extent. -/
structure HeadShape where
  key : LinearShape
  query : LinearShape
  value : LinearShape
  trilSize : ℕ
  deriving DecidableEq

/-- Constructor of Head (lines 178-184): builds three bias-free Linear
layers from n_embd to head_size and the mask buffer; it always succeeds. -/
def Head.construct (head_size n_embd block_size : ℕ) : HeadShape :=
  { key := ⟨n_embd, head_size⟩
    query := ⟨n_embd, head_size⟩
    value := ⟨n_embd, head_size⟩
    trilSize := block_size }

/-- Shape behaviour of Head.forward on an input of last dimension w and
sequence length t: the three projections each require w to equal n_embd,
the mask slice requires t to be at most the mask extent, and the output has
last dimension head_size. -/
def HeadShape.apply (h : HeadShape) (t w : ℕ) : Option ℕ := do
  let _ ← h.key.apply w
  let _ ← h.query.apply w
  if t ≤ h.trilSize then h.value.apply w else none

/-- Shape of a MultiHeadAttention module. -/
structure MultiHeadAttentionShape where
  heads : List HeadShape
  proj : LinearShape
  deriving DecidableEq

/-- Constructor of MultiHeadAttention (lines 202-206): builds num_heads
copies of Head and the projection Linear(n_embd, n_embd); it performs no
check relating num_heads, head_size and n_embd and always succeeds. -/
def MultiHeadAttention.construct (num_heads head_size n_embd block_size : ℕ) :
    MultiHeadAttentionShape :=
  { heads := List.replicate num_heads (Head.construct head_size n_embd block_size)
    proj := ⟨n_embd, n_embd⟩ }

/-- Shape behaviour of MultiHeadAttention.forward (lines 208-212) on an
input of sequence length t and last dimension w: every head runs, the head
outputs are concatenated along the feature dimension (torch.cat fails on an
empty list), and the projection requires the concatenated width to equal
its in-features n_embd. -/
def MultiHeadAttentionShape.apply (m : MultiHeadAttentionShape) (t w : ℕ) :
    Option ℕ := do
  let outs ← m.heads.mapM (fun h => h.apply t w)
  if outs.isEmpty then none else m.proj.apply outs.sum

/-- Shape of a Block module, as far as claim C3 needs it: the attention
sublayer together with the embedding width the feed-forward and
normalization layers are built at. -/
structure BlockShape where
  sa : MultiHeadAttentionShape
  width : ℕ
  deriving DecidableEq

/-- Constructor of Block (lines 217-224): head_size is the floor division
n_embd // n_head (a Python ZeroDivisionError, hence none, when n_head is
0); the sublayers are then built eagerly and no divisibility check is
performed, so construction succeeds for every positive head count. -/
def Block.construct (n_embd n_head block_size : ℕ) : Option BlockShape :=
  if n_head = 0 then none
  else
    let head_size := n_embd / n_head
    some { sa := MultiHeadAttention.construct n_head head_size n_embd block_size
           width := n_embd }

/-
Model of src/training.py: the training loop bookkeeping.  The parts of
run_epoch that depend on the data loader, the model and the optimizer (the
batch loop, loss evaluation, backward, argmax reduction) are abstracted
into per-epoch inputs: what claims C8 and C9 concern is which result keys
are created, which values are appended to them, and how a raising scoring
function is handled.  Losses, scores and times are modelled as rationals.
-/

/-- A value recorded in the results table: a number, or the not-a-number
sentinel float("NaN") written on a scoring failure (line 112). -/
inductive MVal where
  | nan : MVal
  | val : ℚ → MVal
  deriving DecidableEq

/-- A named scoring function, as stored in TrainingConfig.score_funcs: it
receives the accumulated true and predicted labels and either returns a
score or raises (none). -/
abbrev ScoreFn := List ℚ → List ℚ → Option ℚ

/-- The per-epoch quantities produced by the data-dependent part of
run_epoch, abstracted as inputs: accumulated labels and predictions and the
mean loss for the training pass and for the validation pass, plus the
wall-clock epoch time. -/
structure EpochData where
  ytTr : List ℚ
  ypTr : List ℚ
  lossTr : ℚ
  ytVal : List ℚ
  ypVal : List ℚ
  lossVal : ℚ
  time : ℚ

/-- The results dictionary: a finite map from key strings to the list of
per-epoch values appended so far (none for keys that were never created). -/
abbrev Results := String → Option (List MVal)

/-- Key string prefix + "_" + name used throughout train and run_epoch. -/
def mkey (pfx name : String) : String := pfx ++ "_" ++ name

/-- The value run_epoch records for one scoring function (lines 108-112):
the computed score, or NaN when the function raises; the bare except
catches every failure. -/
def scoreRecord (f : ScoreFn) (yt yp : List ℚ) : MVal :=
  match f yt yp with
  | some v => MVal.val v
  | none => MVal.nan

/-- results[key].append(v): the list stored at the key grows by one value;
keys that do not exist are left untouched (in the claims under proof every
appended key has been created by train beforehand). -/
def resAppend (r : Results) (key : String) (v : MVal) : Results :=
  fun k => if k = key then (r k).map (fun l => l ++ [v]) else r k

/-- The scoring loop of run_epoch (lines 108-112): for each configured
scoring function in order, append its recorded value (score or NaN) to the
key pfx + "_" + name. -/
def scoreLoop (funcs : List (String × ScoreFn)) (pfx : String)
    (yt yp : List ℚ) (r : Results) : Results :=
  funcs.foldl (fun acc nf => resAppend acc (mkey pfx nf.1) (scoreRecord nf.2 yt yp)) r

/-- The bookkeeping of one run_epoch call (lines 70-115): the scoring loop
followed by appending the mean loss to pfx + "_loss" (line 114). -/
def runEpochRecord (funcs : List (String × ScoreFn)) (pfx : String)
    (yt yp : List ℚ) (loss : ℚ) (r : Results) : Results :=
  resAppend (scoreLoop funcs pfx yt yp r) (mkey pfx "loss") (MVal.val loss)

/-- The keys train creates (lines 40-45): epoch_time and training_loss
always, validation_loss only when a validation loader is supplied, and then
for every scoring function name both the training- and the
validation-prefixed key, unconditionally. -/
def toTrack (hasVal : Bool) (names : List String) : List String :=
  ["epoch_time", mkey "training" "loss"]
    ++ (if hasVal then [mkey "validation" "loss"] else [])
    ++ names.flatMap (fun n => [mkey "training" n, mkey "validation" n])

/-- The dictionary initialization of train (lines 48-50): every tracked key
maps to an empty list. -/
def initResults (tracked : List String) : Results :=
  fun k => if k ∈ tracked then some [] else none

/-- One iteration of the epoch loop of train (lines 53-62): a training
run_epoch, a validation run_epoch only when a validation loader is
supplied, then the epoch time is appended. -/
def epochStep (funcs : List (String × ScoreFn)) (hasVal : Bool)
    (data : ℕ → EpochData) (e : ℕ) (r : Results) : Results :=
  let r1 := runEpochRecord funcs "training" (data e).ytTr (data e).ypTr (data e).lossTr r
  let r2 := if hasVal then
      runEpochRecord funcs "validation" (data e).ytVal (data e).ypVal (data e).lossVal r1
    else r1
  resAppend r2 "epoch_time" (MVal.val (data e).time)

/-- The epoch loop of train, running n epochs starting at epoch index
start. -/
def trainFrom (funcs : List (String × ScoreFn)) (hasVal : Bool)
    (data : ℕ → EpochData) : ℕ → ℕ → Results → Results
  | _, 0, r => r
  | start, n + 1, r =>
    trainFrom funcs hasVal data (start + 1) n (epochStep funcs hasVal data start r)

/-- The results dictionary produced by train (lines 39-62) after its epoch
loop, for a configuration with the given scoring functions, presence of a
validation loader, epoch count and per-epoch data. -/
def train (hasVal : Bool) (funcs : List (String × ScoreFn)) (epochs : ℕ)
    (data : ℕ → EpochData) : Results :=
  trainFrom funcs hasVal data 0 epochs (initResults (toTrack hasVal (funcs.map Prod.fst)))

/-- pd.DataFrame.from_dict (line 68) succeeds on a dict of per-key lists
only when all the lists have the same length; otherwise it raises
ValueError. -/
def fromDictOk (tracked : List String) (r : Results) : Bool :=
  (tracked.map (fun k => ((r k).getD []).length)).Pairwise (· = ·)

/-- The value train returns to its caller: the tabular conversion of the
results dictionary, or none when pd.DataFrame.from_dict raises on lists of
unequal length. -/
def trainOutput (hasVal : Bool) (funcs : List (String × ScoreFn)) (epochs : ℕ)
    (data : ℕ → EpochData) : Option Results :=
  let r := train hasVal funcs epochs data
  if fromDictOk (toTrack hasVal (funcs.map Prod.fst)) r then some r else none

/-
Specification-side compositions for the refinement claims C2 and C4,
written from the words of the spec so they can be compared with the
forward functions embedded from the source.
-/

/-- Specification text of Variant A (spec section 4.5, pre-norm):
x1 = x + Attention(Norm(x)); x2 = x1 + FeedForward(Norm(x1)). -/
def specVariantA {T n : ℕ} (attn ff norm1 norm2 : Mat T n → Mat T n)
    (x : Mat T n) : Mat T n :=
  let x1 := x + attn (norm1 x)
  x1 + ff (norm2 x1)

/-- Specification text of Variant B (spec section 4.5, post-norm):
x1 = Norm(Attention(x) + x); x2 = Norm(FeedForward(x1) + x1). -/
def specVariantB {T n : ℕ} (attn ff norm1 norm2 : Mat T n → Mat T n)
    (x : Mat T n) : Mat T n :=
  let x1 := norm1 (attn x + x)
  norm2 (ff x1 + x1)

/-- Claim C4 rendered on the embedding: there are final-normalization
parameters (a learned scale and bias) such that for every input the GPT2
forward pass equals the vocabulary projection applied to that normalization
of the block-stack output. -/
def gpt2AppliesFinalNorm {V C H hs : ℕ} (p : GPT2Params V C H hs) : Prop :=
  ∃ w b : Vec (H * hs), ∀ (T : ℕ) (hT : T ≤ C) (idx : Fin T → Fin V),
    GPT2.forward hT p idx =
      fun t => linearF p.lmW p.lmB (layerNormAffine w b (GPT2.blocksOut hT p idx t))

/-
Observation functions used by the lookup lemmas about the training loop:
what one scoring loop, one epoch, and a run of epochs append to a given
result key.
-/

/-- The values the scoring loop of run_epoch appends to the key k: one
recorded value per configured scoring function whose key matches k. -/
def scoreContrib (funcs : List (String × ScoreFn)) (pfx : String)
    (yt yp : List ℚ) (k : String) : List MVal :=
  (funcs.filter (fun nf => mkey pfx nf.1 = k)).map (fun nf => scoreRecord nf.2 yt yp)

/-- The values one iteration of the epoch loop of train appends to the key
k. -/
def epochContrib (funcs : List (String × ScoreFn)) (hasVal : Bool)
    (data : ℕ → EpochData) (e : ℕ) (k : String) : List MVal :=
  (scoreContrib funcs "training" (data e).ytTr (data e).ypTr k
      ++ (if k = mkey "training" "loss" then [MVal.val (data e).lossTr] else []))
    ++ (if hasVal then
        scoreContrib funcs "validation" (data e).ytVal (data e).ypVal k
          ++ (if k = mkey "validation" "loss" then [MVal.val (data e).lossVal] else [])
      else [])
    ++ (if k = "epoch_time" then [MVal.val (data e).time] else [])

/-- The values n iterations of the epoch loop starting at epoch index start
append to the key k. -/
def rangeContrib (funcs : List (String × ScoreFn)) (hasVal : Bool)
    (data : ℕ → EpochData) : ℕ → ℕ → String → List MVal
  | _, 0, _ => []
  | start, n + 1, k =>
    epochContrib funcs hasVal data start k
      ++ rangeContrib funcs hasVal data (start + 1) n k

/-
Concrete instances used by witness and counterexample theorems.
-/

/-- A uniform-logit language model: one all-zero logit row per input
position.  It satisfies the decoder-stack output contract (one row per
position). -/
def uModel (V : ℕ) : List ℕ → List (Vec V) :=
  fun l => l.map (fun _ => fun _ => 0)

/-- A constant stream of random draws. -/
def rand0 : ℕ → ℝ := fun _ => 0

/-- All-zero parameters of one size-1 attention head over width 1. -/
def headP0 : HeadParams 1 1 :=
  { key := fun _ _ => 0, query := fun _ _ => 0, value := fun _ _ => 0 }

/-- An all-zero length-2 hidden state of width 1. -/
def xM0 : Mat 2 1 := fun _ _ => 0

/-- All-zero multi-head attention parameters with one head of size 1. -/
def mhaP0 : MultiHeadAttentionParams 1 1 :=
  { heads := fun _ => headP0, projW := fun _ _ => 0, projB := fun _ => 0 }

/-- All-zero feed-forward parameters at width 1. -/
def ffP0 : FeedFowardParams 1 :=
  { W1 := fun _ _ => 0, b1 := fun _ => 0, W2 := fun _ _ => 0, b2 := fun _ => 0 }

/-- All-zero Block (and BlockGPT1) parameters at one head of size 1. -/
def blockP0 : BlockParams 1 1 :=
  { sa := mhaP0, ffwd := ffP0
    ln1w := fun _ => 0, ln1b := fun _ => 0, ln2w := fun _ => 0, ln2b := fun _ => 0 }

/-- All-zero BlockGPT2 parameters at one head of size 1, bias disabled. -/
def blockGPT2P0 : BlockGPT2Params 1 1 :=
  { sa := mhaP0, ffwd := ffP0
    ln1 := { weight := fun _ => 0, bias := none }
    ln2 := { weight := fun _ => 0, bias := none } }

/-- An all-zero length-1 hidden state of width 1. -/
def xB0 : Mat 1 1 := fun _ _ => 0

/-- All-zero simpleGPT parameters: vocabulary 1, context window 1, one head
of size 1, no blocks. -/
def simpleP0 : SimpleGPTParams 1 1 1 1 :=
  { tok := fun _ _ => 0, pos := fun _ _ => 0, blocks := []
    lnFw := fun _ => 0, lnFb := fun _ => 0, lmW := fun _ _ => 0, lmB := fun _ => 0 }

/-- GPT2 parameters witnessing the absence of a final normalization:
vocabulary 2, context window 1, one head of size 1, no blocks; the token
embedding of id v is the width-1 vector (v), the position embedding is 0
and lm_head is the identity on width 1.  The logit of id v is then exactly
v, so the output varies with the input while any final layer normalization
of a width-1 vector is a constant. -/
def gpt2Pcex : GPT2Params 2 1 1 1 :=
  { tok := fun v => fun _ => (v.val : ℝ), pos := fun _ _ => 0, blocks := []
    lmW := fun _ _ => 1, lmB := fun _ => 0 }

/-- A scoring function that always succeeds with score 1. -/
def accScore : ScoreFn := fun _ _ => some 1

/-- A scoring function that always raises. -/
def failScore : ScoreFn := fun _ _ => none

/-- A configuration with the single scoring function accuracy. -/
def funcsAcc : List (String × ScoreFn) := [("accuracy", accScore)]

/-- A configuration with a single always-raising scoring function. -/
def funcsFail : List (String × ScoreFn) := [("acc", failScore)]

/-- Trivial per-epoch data. -/
def data0 : ℕ → EpochData :=
  fun _ => { ytTr := [], ypTr := [], lossTr := 0
             ytVal := [], ypVal := [], lossVal := 0, time := 0 }

end

/-
Theorems.  Helper lemmas come first, then one theorem per claim together
with its witness or counterexample where required.
-/

theorem expMasked_nonneg (o : Option ℝ) : 0 ≤ expMasked o := by
  cases o with
  | none => exact le_refl 0
  | some r => exact (Real.exp_pos r).le

theorem trilSlice_eq_zero_iff {bs T : ℕ} (hT : T ≤ bs) (i j : Fin T) :
    trilSlice bs T hT i j = 0 ↔ i < j := by
  simp only [trilSlice, tril]
  split_ifs with h
  · simp only [one_ne_zero, false_iff]
    intro hij
    rw [Fin.lt_def] at hij
    simp only [Fin.val_fin_le] at h
    omega
  · simp only [eq_self_iff_true, true_iff]
    rw [Fin.lt_def]
    omega

theorem head_masked_diag_ne_none {T bs D hs : ℕ} (hT : T ≤ bs)
    (p : HeadParams D hs) (x : Mat T D) (i : Fin T) :
    Head.masked hT p x i i ≠ none := by
  have hz : ¬ trilSlice bs T hT i i = 0 := by
    rw [trilSlice_eq_zero_iff hT]
    exact lt_irrefl i
  simp [Head.masked, hz]

theorem maskedSoftmax_row_sum {n : ℕ} (m : Fin n → Option ℝ) (i0 : Fin n)
    (h : m i0 ≠ none) :
    ∑ j, expMasked (m j) / ∑ j2, expMasked (m j2) = 1 := by
  have hpos : 0 < ∑ j2, expMasked (m j2) := by
    refine Finset.sum_pos' (fun j _ => expMasked_nonneg (m j)) ⟨i0, Finset.mem_univ _, ?_⟩
    cases hm : m i0 with
    | none => exact absurd hm h
    | some r => exact Real.exp_pos r
  rw [← Finset.sum_div]
  exact div_self hpos.ne'

/-- Claim C1: for every hidden-state input with sequence length T at most
the configured mask extent (context window) bs, the attention weight matrix
of a single head in inference mode has weight exactly 0 at every entry
(i, j) with j > i, and every row sums to 1; the precomputed causal mask is
sliced to the active T by T sub-block, so this holds for every T ≤ bs. -/
theorem head_attention_weights_causal_rows_sum_one {T bs D hs : ℕ}
    (hT : T ≤ bs) (p : HeadParams D hs) (x : Mat T D) (i : Fin T) :
    (∀ j : Fin T, i < j → Head.wei hT p x i j = 0) ∧
    (∑ j, Head.wei hT p x i j) = 1 := by
  constructor
  · intro j hij
    have hz : trilSlice bs T hT i j = 0 := (trilSlice_eq_zero_iff hT i j).mpr hij
    simp [Head.wei, Head.masked, hz, expMasked]
  · exact maskedSoftmax_row_sum (Head.masked hT p x i) i (head_masked_diag_ne_none hT p x i)

/-- Claim C1 witness: the causal-zero and row-sum facts at sequence length
2 under mask extent 3, all-zero parameters and input, row 0. -/
theorem head_attention_weights_causal_rows_sum_one_witness :
    (∀ j : Fin 2, (0 : Fin 2) < j →
      Head.wei (by decide : (2:ℕ) ≤ 3) headP0 xM0 (0 : Fin 2) j = 0) ∧
    (∑ j, Head.wei (by decide : (2:ℕ) ≤ 3) headP0 xM0 (0 : Fin 2) j) = 1 :=
  head_attention_weights_causal_rows_sum_one (by decide) headP0 xM0 0

/-- Claim C2: each transformer block variant computes exactly its specified
composition for every input hidden-state tensor: Block is Variant A
(pre-norm, residual around each subcomponent), BlockGPT1 is Variant B
(post-norm), and BlockGPT2 has the same structure as Variant A but with the
bias-optional normalization layer (and the GELU feed-forward). -/
theorem block_variants_match_spec {T bs H hs : ℕ} (hT : T ≤ bs)
    (p : BlockParams H hs) (p2 : BlockGPT2Params H hs) (x : Mat T (H * hs)) :
    Block.forward hT p x =
      specVariantA (MultiHeadAttention.forward hT p.sa)
        (mapPos (FeedFoward.forward p.ffwd))
        (mapPos (layerNormAffine p.ln1w p.ln1b))
        (mapPos (layerNormAffine p.ln2w p.ln2b)) x ∧
    BlockGPT1.forward hT p x =
      specVariantB (MultiHeadAttention.forward hT p.sa)
        (mapPos (FeedFoward.forward p.ffwd))
        (mapPos (layerNormAffine p.ln1w p.ln1b))
        (mapPos (layerNormAffine p.ln2w p.ln2b)) x ∧
    BlockGPT2.forward hT p2 x =
      specVariantA (MultiHeadAttention.forward hT p2.sa)
        (mapPos (FeedFowardGPT2.forward p2.ffwd))
        (mapPos (LayerNorm.forward p2.ln1))
        (mapPos (LayerNorm.forward p2.ln2)) x :=
  ⟨rfl, rfl, rfl⟩

/-- Claim C2 witness: the three block equalities at a concrete size-1
configuration with all-zero parameters. -/
theorem block_variants_match_spec_witness :
    Block.forward (le_refl 1) blockP0 xB0 =
      specVariantA (MultiHeadAttention.forward (le_refl 1) blockP0.sa)
        (mapPos (FeedFoward.forward blockP0.ffwd))
        (mapPos (layerNormAffine blockP0.ln1w blockP0.ln1b))
        (mapPos (layerNormAffine blockP0.ln2w blockP0.ln2b)) xB0 ∧
    BlockGPT1.forward (le_refl 1) blockP0 xB0 =
      specVariantB (MultiHeadAttention.forward (le_refl 1) blockP0.sa)
        (mapPos (FeedFoward.forward blockP0.ffwd))
        (mapPos (layerNormAffine blockP0.ln1w blockP0.ln1b))
        (mapPos (layerNormAffine blockP0.ln2w blockP0.ln2b)) xB0 ∧
    BlockGPT2.forward (le_refl 1) blockGPT2P0 xB0 =
      specVariantA (MultiHeadAttention.forward (le_refl 1) blockGPT2P0.sa)
        (mapPos (FeedFowardGPT2.forward blockGPT2P0.ffwd))
        (mapPos (LayerNorm.forward blockGPT2P0.ln1))
        (mapPos (LayerNorm.forward blockGPT2P0.ln2)) xB0 :=
  block_variants_match_spec (le_refl 1) blockP0 blockGPT2P0 xB0

/-- Claim C7: for every input vector and every learned per-feature scale,
the bias-optional normalization layer with bias disabled (absent) produces
output exactly equal to the same layer with bias enabled and set to the
zero vector. -/
theorem layerNorm_bias_none_eq_zero_bias {n : ℕ} (w : Vec n) (x : Vec n) :
    LayerNorm.forward { weight := w, bias := none } x =
      LayerNorm.forward { weight := w, bias := some (fun _ => 0) } x := by
  funext i
  simp [LayerNorm.forward, layerNormOpt]

/-- Claim C10: simpleGPT holds a final normalization layer (the fields of
ln_f, created at construction) but never applies it: its output is
identical for any two settings of those parameters, and its forward pass is
token-plus-position embedding, the block stack, and directly the vocabulary
projection. -/
theorem simpleGPT_final_norm_unused {T V C H hs : ℕ} (hT : T ≤ C)
    (p : SimpleGPTParams V C H hs) (w1 b1 w2 b2 : Vec (H * hs))
    (idx : Fin T → Fin V) :
    simpleGPT.forward hT { p with lnFw := w1, lnFb := b1 } idx =
      simpleGPT.forward hT { p with lnFw := w2, lnFb := b2 } idx ∧
    simpleGPT.forward hT p idx =
      fun t => linearF p.lmW p.lmB
        ((p.blocks.foldl (fun acc bp => Block.forward hT bp acc)
          (tokPosEmbed hT p.tok p.pos idx)) t) :=
  ⟨rfl, rfl⟩

/-- Claim C10 witness: the two equalities at a concrete size-1 simpleGPT
with distinct final-normalization parameter settings. -/
theorem simpleGPT_final_norm_unused_witness :
    simpleGPT.forward (le_refl 1) { simpleP0 with lnFw := fun _ => 1, lnFb := fun _ => 2 }
        (fun _ => 0) =
      simpleGPT.forward (le_refl 1) { simpleP0 with lnFw := fun _ => 3, lnFb := fun _ => 4 }
        (fun _ => 0) ∧
    simpleGPT.forward (le_refl 1) simpleP0 (fun _ => 0) =
      fun t => linearF simpleP0.lmW simpleP0.lmB
        ((simpleP0.blocks.foldl (fun acc bp => Block.forward (le_refl 1) bp acc)
          (tokPosEmbed (le_refl 1) simpleP0.tok simpleP0.pos (fun _ => 0))) t) :=
  simpleGPT_final_norm_unused (le_refl 1) simpleP0 (fun _ => 1) (fun _ => 2)
    (fun _ => 3) (fun _ => 4) (fun _ => 0)

theorem mapM_replicate_option {α β : Type} (f : α → Option β) (a : α) (v : β)
    (h : f a = some v) : ∀ n, (List.replicate n a).mapM f = some (List.replicate n v) := by
  intro n
  induction n with
  | zero => rfl
  | succ n ih =>
    rw [List.replicate_succ, List.replicate_succ, List.mapM_cons, h, ih]
    rfl

/-- Claim C3 counterexample: embedding dimension 5 is not divisible by head
count 2, yet Block construction (which builds the multi-head attention
layer) succeeds, so construction does not fail fatally at construction time
for every non-dividing configuration. -/
theorem block_construct_succeeds_non_dividing :
    (Block.construct 5 2 4).isSome = true ∧ ¬ (2 ∣ 5) := by decide

/-- Claim C3 amended: construction performs no divisibility validation and
succeeds for every configuration with a positive head count; the violation
surfaces only at the first forward pass of the multi-head attention layer,
whose output shape-checks (concatenated head width against the output
projection) succeed on a width-D input exactly when the head count divides
the embedding dimension D. -/
theorem block_construct_total_mha_forward_iff_dvd
    (D H bs T : ℕ) (hH : 0 < H) (hT : T ≤ bs) :
    ∃ b, Block.construct D H bs = some b ∧
      ((b.sa.apply T D).isSome ↔ H ∣ D) := by
  have hne : H ≠ 0 := hH.ne'
  have happ : (Head.construct (D / H) D bs).apply T D = some (D / H) := by
    simp [Head.construct, HeadShape.apply, LinearShape.apply, hT]
  refine ⟨{ sa := MultiHeadAttention.construct H (D / H) D bs, width := D }, ?_, ?_⟩
  · rw [Block.construct, if_neg hne]
  · simp only [MultiHeadAttentionShape.apply, MultiHeadAttention.construct]
    rw [mapM_replicate_option (fun h : HeadShape => h.apply T D) _ _ happ]
    have hnonempty : (List.replicate H (D / H)).isEmpty = false := by
      cases H with
      | zero => exact absurd rfl hne
      | succ n => rfl
    simp only [Option.bind_eq_bind, Option.some_bind, hnonempty, Bool.false_eq_true,
      if_false, List.sum_replicate, smul_eq_mul, LinearShape.apply]
    split_ifs with hdvd
    · simp only [Option.isSome_some, true_iff]
      exact ⟨D / H, hdvd.symm⟩
    · simp only [Option.isSome_none, Bool.false_eq_true, false_iff]
      intro hd
      exact hdvd (Nat.mul_div_cancel' hd)

/-- Claim C3 amended witness: the construction success and the
forward-failure equivalence at the concrete non-dividing configuration
D = 5, H = 2. -/
theorem block_construct_total_mha_forward_iff_dvd_witness :
    ∃ b, Block.construct 5 2 4 = some b ∧
      ((b.sa.apply 1 5).isSome ↔ 2 ∣ 5) :=
  block_construct_total_mha_forward_iff_dvd 5 2 4 1 (by decide) (by decide)

/-- Claim C4 counterexample: the GPT2-style decoder applies no final
normalization between the last block and the vocabulary projection.  At a
concrete configuration (vocabulary 2, width 1, no blocks, identity
projection) there are no final-normalization parameters whose insertion
before lm_head reproduces GPT2.forward: the actual logits vary with the
input token while a layer normalization of a width-1 vector is constant, so
the claimed composition is impossible. -/
theorem gpt2_no_final_norm : ¬ gpt2AppliesFinalNorm gpt2Pcex := by
  rintro ⟨w, b, h⟩
  have h0 := congrFun (congrFun (h 1 (le_refl 1) (fun _ => 0)) 0) 0
  have h1 := congrFun (congrFun (h 1 (le_refl 1) (fun _ => 1)) 0) 0
  simp [GPT2.forward, GPT2.blocksOut, gpt2Pcex, tokPosEmbed, dropoutEval,
    linearF, layerNormAffine, layerNormOpt, lnMean, lnVar,
    Finset.sum_const, Finset.card_univ] at h0 h1
  linarith [h0, h1]

/-- Claim C4 amended: the GPT2-style decoder forward pass applies, in
order, token-plus-position embedding, input dropout, the sequential block
stack, and then directly the learned vocabulary projection; no final
normalization is applied between the last block and lm_head (GPT2
constructs none). -/
theorem gpt2_forward_structure {T V C H hs : ℕ} (hT : T ≤ C)
    (p : GPT2Params V C H hs) (idx : Fin T → Fin V) :
    GPT2.forward hT p idx =
      fun t => linearF p.lmW p.lmB
        ((p.blocks.foldl (fun acc bp => BlockGPT2.forward hT bp acc)
          (dropoutEval (tokPosEmbed hT p.tok p.pos idx))) t) :=
  rfl

/-- Claim C4 amended witness: the structural equality at the concrete GPT2
instance. -/
theorem gpt2_forward_structure_witness :
    GPT2.forward (le_refl 1) gpt2Pcex (fun _ => 0) =
      fun t => linearF gpt2Pcex.lmW gpt2Pcex.lmB
        ((gpt2Pcex.blocks.foldl (fun acc bp => BlockGPT2.forward (le_refl 1) bp acc)
          (dropoutEval (tokPosEmbed (le_refl 1) gpt2Pcex.tok gpt2Pcex.pos
            (fun _ => 0)))) t) :=
  gpt2_forward_structure (le_refl 1) gpt2Pcex (fun _ => 0)

theorem truncCond_ne_nil (blockSize : Option ℕ) (idx : List ℕ) (h : idx ≠ []) :
    truncCond blockSize idx ≠ [] := by
  cases blockSize with
  | none => exact h
  | some b =>
    by_cases hb : b = 0
    · simpa [truncCond, hb] using h
    · simp only [truncCond, if_neg hb]
      have hlen : 0 < idx.length := List.length_pos.mpr h
      intro hcontra
      have hlen2 := congrArg List.length hcontra
      rw [List.length_drop] at hlen2
      simp only [List.length_nil] at hlen2
      omega

theorem generateAux_spec {V : ℕ} (hV : 0 < V) (model : List ℕ → List (Vec V))
    (blockSize : Option ℕ) (rand : ℕ → ℝ)
    (hmodel : ∀ l, (model l).length = l.length) :
    ∀ (N t : ℕ) (idx : List ℕ), idx ≠ [] →
      ∃ tail, (generateAux hV model blockSize rand N t idx).1 = some (idx ++ tail) ∧
        tail.length = N ∧ ∀ a ∈ tail, a < V := by
  intro N
  induction N with
  | zero =>
    intro t idx h
    exact ⟨[], by simp [generateAux], rfl, by simp⟩
  | succ n ih =>
    intro t idx h
    have hcond : truncCond blockSize idx ≠ [] := truncCond_ne_nil _ _ h
    have hmne : model (truncCond blockSize idx) ≠ [] := by
      intro hm
      have hml := hmodel (truncCond blockSize idx)
      rw [hm] at hml
      exact hcond (List.length_eq_zero.mp hml.symm)
    have hsome : (model (truncCond blockSize idx)).getLast?.isSome := by
      rwa [List.getLast?_isSome]
    obtain ⟨lg, hlg⟩ := Option.isSome_iff_exists.mp hsome
    obtain ⟨tail2, h1, h2, h3⟩ :=
      ih (t + 1) (idx ++ [(multinomial hV (softmax lg) (rand t)).val]) (by simp)
    refine ⟨(multinomial hV (softmax lg) (rand t)).val :: tail2, ?_, ?_, ?_⟩
    · simp only [generateAux, hlg]
      rw [h1]
      simp
    · simp [h2]
    · intro a ha
      rcases List.mem_cons.mp ha with rfl | ha2
      · exact (multinomial hV (softmax lg) (rand t)).isLt
      · exact h3 a ha2

/-- Claim C5 amended: for every model satisfying the decoder-stack output
contract (one logit row per input position), every requested count N of new
tokens, and every starting sequence that is nonempty or has N = 0, the
sampler returns a sequence of length input plus N whose first input-length
ids equal the input exactly and whose appended ids all lie in
[0, vocab_size).  On the empty starting sequence with N at least 1 the
sampler instead fails; see the counterexample. -/
theorem generate_output_contract {V : ℕ} (hV : 0 < V)
    (model : List ℕ → List (Vec V)) (blockSize : Option ℕ) (rand : ℕ → ℝ)
    (idx : List ℕ) (N : ℕ) (hmodel : ∀ l, (model l).length = l.length)
    (hstart : idx ≠ [] ∨ N = 0) :
    ∃ out, generate hV model blockSize rand idx N = some out ∧
      out.length = idx.length + N ∧
      out.take idx.length = idx ∧
      ∀ a ∈ out.drop idx.length, a < V := by
  rcases hstart with hne | rfl
  · obtain ⟨tail, h1, h2, h3⟩ := generateAux_spec hV model blockSize rand hmodel N 0 idx hne
    refine ⟨idx ++ tail, h1, ?_, ?_, ?_⟩
    · simp [h2]
    · simp
    · rw [List.drop_left]
      exact h3
  · exact ⟨idx, by simp [generate, generateAux], by simp, by simp, by simp⟩

/-- Claim C5 witness: two tokens sampled from the uniform two-token model
starting from the sequence [0]. -/
theorem generate_output_contract_witness :
    ∃ out, generate (by decide : (0:ℕ) < 2) (uModel 2) none rand0 [0] 2 = some out ∧
      out.length = ([0] : List ℕ).length + 2 ∧
      out.take ([0] : List ℕ).length = [0] ∧
      ∀ a ∈ out.drop ([0] : List ℕ).length, a < 2 :=
  generate_output_contract (by decide) (uModel 2) none rand0 [0] 2
    (fun l => by simp [uModel]) (Or.inl (by simp))

/-- Claim C5 counterexample: on the empty starting sequence with one
requested token the sampler fails (the last-position logit selection
logits[:, -1, :] raises on a length-0 time dimension) instead of returning
a sequence of length 0 + 1. -/
theorem generate_empty_input_fails :
    generate (by decide : (0:ℕ) < 1) (uModel 1) none rand0 [] 1 = none := by
  simp [generate, generateAux, truncCond, uModel]

theorem truncCond_length_le (b : ℕ) (hb : 0 < b) (idx : List ℕ) :
    (truncCond (some b) idx).length ≤ b := by
  simp only [truncCond, if_neg hb.ne']
  rw [List.length_drop]
  omega

theorem generate_calls_bounded {V : ℕ} (hV : 0 < V)
    (model : List ℕ → List (Vec V)) (rand : ℕ → ℝ) (b : ℕ) (hb : 0 < b) :
    ∀ (N t : ℕ) (idx : List ℕ),
      ∀ l ∈ (generateAux hV model (some b) rand N t idx).2, l.length ≤ b := by
  intro N
  induction N with
  | zero =>
    intro t idx l hl
    simp [generateAux] at hl
  | succ n ih =>
    intro t idx l hl
    rcases hlast : (model (truncCond (some b) idx)).getLast? with _ | lg
    · simp only [generateAux, hlast, List.mem_singleton] at hl
      subst hl
      exact truncCond_length_le b hb idx
    · simp only [generateAux, hlast, List.mem_cons] at hl
      rcases hl with rfl | hl2
      · exact truncCond_length_le b hb idx
      · exact ih (t + 1) _ l hl2

/-- Claim C6 amended: on every iteration of the sampler, when a block-size
bound b > 0 is supplied, the current sequence is truncated to its most
recent at-most-b tokens before the model is run, so the model is never
invoked on a sequence longer than b.  When no block size is supplied (the
default None) no truncation occurs and the model can be invoked on
sequences longer than the context window; see the counterexample. -/
theorem generate_truncates_model_inputs {V : ℕ} (hV : 0 < V)
    (model : List ℕ → List (Vec V)) (rand : ℕ → ℝ) (idx : List ℕ)
    (N b : ℕ) (hb : 0 < b) :
    ∀ l ∈ generateCalls hV model (some b) rand idx N, l.length ≤ b :=
  fun l hl => generate_calls_bounded hV model rand b hb N 0 idx l hl

/-- Claim C6 amended witness: with block size 2 and starting sequence
[5, 6, 7], the single model invocation receives [6, 7], whose length is
within the bound. -/
theorem generate_truncates_model_inputs_witness :
    ([6, 7] : List ℕ).length ≤ 2 :=
  generate_truncates_model_inputs (by decide : (0:ℕ) < 1) (uModel 1) rand0 [5, 6, 7] 1 2
    (by decide) [6, 7]
    (by simp [generateCalls, generateAux, truncCond, uModel])

/-- Claim C6 counterexample: with the default block size None the sampler
performs no truncation: starting from a length-3 sequence for a model whose
intended context window is 2, the model is invoked on the full length-3
sequence, which exceeds the context window. -/
theorem generate_no_truncation_by_default :
    generateCalls (by decide : (0:ℕ) < 1) (uModel 1) none rand0 [0, 1, 2] 1 =
      [[0, 1, 2]] ∧
    ([0, 1, 2] : List ℕ).length > 2 :=
  ⟨rfl, by decide⟩

theorem string_append_left_cancel {s a b : String} (h : s ++ a = s ++ b) : a = b := by
  have h2 : (s ++ a).data = (s ++ b).data := congrArg String.data h
  rw [String.data_append, String.data_append] at h2
  exact String.ext (List.append_cancel_left h2)

theorem mkey_right_inj {pfx a b : String} (h : mkey pfx a = mkey pfx b) : a = b :=
  string_append_left_cancel (s := pfx ++ "_") h

theorem string_head_ne {s1 s2 : String} {c1 c2 : Char} {l1 l2 : List Char}
    (h1 : s1.data = c1 :: l1) (h2 : s2.data = c2 :: l2) (hc : c1 ≠ c2) : s1 ≠ s2 := by
  intro h
  rw [h, h2] at h1
  exact hc (List.head_eq_of_cons_eq h1.symm)

theorem mkey_training_data (a : String) :
    (mkey "training" a).data = 't' :: (['r', 'a', 'i', 'n', 'i', 'n', 'g', '_'] ++ a.data) := by
  rw [show mkey "training" a = ("training" ++ "_") ++ a from rfl, String.data_append]
  rfl

theorem mkey_validation_data (a : String) :
    (mkey "validation" a).data =
      'v' :: (['a', 'l', 'i', 'd', 'a', 't', 'i', 'o', 'n', '_'] ++ a.data) := by
  rw [show mkey "validation" a = ("validation" ++ "_") ++ a from rfl, String.data_append]
  rfl

theorem mkey_training_ne_validation (a b : String) :
    mkey "training" a ≠ mkey "validation" b :=
  string_head_ne (mkey_training_data a) (mkey_validation_data b) (by decide)

theorem epoch_time_ne_mkey_training (a : String) : "epoch_time" ≠ mkey "training" a :=
  string_head_ne rfl (mkey_training_data a) (by decide)

theorem epoch_time_ne_mkey_validation (a : String) : "epoch_time" ≠ mkey "validation" a :=
  string_head_ne rfl (mkey_validation_data a) (by decide)

theorem resAppend_lookup (r : Results) (key k : String) (v : MVal) :
    resAppend r key v k = if k = key then (r k).map (fun l => l ++ [v]) else r k :=
  rfl

theorem scoreContrib_cons_pos {pfx k : String} {yt yp : List ℚ} {nf : String × ScoreFn}
    {fs : List (String × ScoreFn)} (h : mkey pfx nf.1 = k) :
    scoreContrib (nf :: fs) pfx yt yp k =
      scoreRecord nf.2 yt yp :: scoreContrib fs pfx yt yp k := by
  simp [scoreContrib, List.filter_cons, h]

theorem scoreContrib_cons_neg {pfx k : String} {yt yp : List ℚ} {nf : String × ScoreFn}
    {fs : List (String × ScoreFn)} (h : ¬ mkey pfx nf.1 = k) :
    scoreContrib (nf :: fs) pfx yt yp k = scoreContrib fs pfx yt yp k := by
  simp [scoreContrib, List.filter_cons, h]

theorem scoreLoop_lookup (pfx : String) (yt yp : List ℚ) (k : String) :
    ∀ (funcs : List (String × ScoreFn)) (r : Results),
      scoreLoop funcs pfx yt yp r k =
        (r k).map (fun l => l ++ scoreContrib funcs pfx yt yp k) := by
  intro funcs
  induction funcs with
  | nil =>
    intro r
    show r k = (r k).map (fun l => l ++ scoreContrib [] pfx yt yp k)
    cases r k <;> simp [scoreContrib]
  | cons nf fs ih =>
    intro r
    show scoreLoop fs pfx yt yp (resAppend r (mkey pfx nf.1) (scoreRecord nf.2 yt yp)) k = _
    rw [ih, resAppend_lookup]
    by_cases hk : k = mkey pfx nf.1
    · rw [if_pos hk, scoreContrib_cons_pos hk.symm]
      cases r k <;> simp
    · rw [if_neg hk, scoreContrib_cons_neg (fun h => hk h.symm)]

theorem runEpochRecord_lookup (funcs : List (String × ScoreFn)) (pfx : String)
    (yt yp : List ℚ) (loss : ℚ) (r : Results) (k : String) :
    runEpochRecord funcs pfx yt yp loss r k =
      (r k).map (fun l => l ++ (scoreContrib funcs pfx yt yp k
        ++ (if k = mkey pfx "loss" then [MVal.val loss] else []))) := by
  show resAppend (scoreLoop funcs pfx yt yp r) (mkey pfx "loss") (MVal.val loss) k = _
  rw [resAppend_lookup, scoreLoop_lookup]
  by_cases hk : k = mkey pfx "loss"
  · rw [if_pos hk, if_pos hk]
    cases r k <;> simp
  · rw [if_neg hk, if_neg hk]
    cases r k <;> simp

theorem epochStep_lookup (funcs : List (String × ScoreFn)) (hasVal : Bool)
    (data : ℕ → EpochData) (e : ℕ) (r : Results) (k : String) :
    epochStep funcs hasVal data e r k =
      (r k).map (fun l => l ++ epochContrib funcs hasVal data e k) := by
  cases hasVal with
  | false =>
    show resAppend (runEpochRecord funcs "training" (data e).ytTr (data e).ypTr
        (data e).lossTr r) "epoch_time" (MVal.val (data e).time) k = _
    rw [resAppend_lookup, runEpochRecord_lookup, epochContrib]
    by_cases hk : k = "epoch_time"
    · rw [if_pos hk, if_pos hk]
      cases r k <;> simp
    · rw [if_neg hk, if_neg hk]
      cases r k <;> simp
  | true =>
    show resAppend (runEpochRecord funcs "validation" (data e).ytVal (data e).ypVal
        (data e).lossVal (runEpochRecord funcs "training" (data e).ytTr (data e).ypTr
          (data e).lossTr r)) "epoch_time" (MVal.val (data e).time) k = _
    rw [resAppend_lookup, runEpochRecord_lookup, runEpochRecord_lookup, epochContrib]
    by_cases hk : k = "epoch_time"
    · rw [if_pos hk, if_pos hk]
      cases r k <;> simp
    · rw [if_neg hk, if_neg hk]
      cases r k <;> simp

theorem trainFrom_lookup (funcs : List (String × ScoreFn)) (hasVal : Bool)
    (data : ℕ → EpochData) (k : String) :
    ∀ (n start : ℕ) (r : Results),
      trainFrom funcs hasVal data start n r k =
        (r k).map (fun l => l ++ rangeContrib funcs hasVal data start n k) := by
  intro n
  induction n with
  | zero =>
    intro start r
    show r k = (r k).map (fun l => l ++ rangeContrib funcs hasVal data start 0 k)
    cases r k <;> simp [rangeContrib]
  | succ m ih =>
    intro start r
    show trainFrom funcs hasVal data (start + 1) m (epochStep funcs hasVal data start r) k = _
    rw [ih, epochStep_lookup,
      show rangeContrib funcs hasVal data start (m + 1) k
        = epochContrib funcs hasVal data start k
          ++ rangeContrib funcs hasVal data (start + 1) m k from rfl]
    cases r k <;> simp

theorem train_lookup (hasVal : Bool) (funcs : List (String × ScoreFn)) (epochs : ℕ)
    (data : ℕ → EpochData) (k : String) :
    train hasVal funcs epochs data k =
      (initResults (toTrack hasVal (funcs.map Prod.fst)) k).map
        (fun l => l ++ rangeContrib funcs hasVal data 0 epochs k) :=
  trainFrom_lookup funcs hasVal data k epochs 0 _

/-- Claim C8 (code bug in the source): evaluation at the failing
configuration — no validation loader, one epoch, the single default
accuracy scoring function.  The key validation_accuracy is nevertheless
created in the results (train appends validation-prefixed score keys to
to_track unconditionally) and stays empty while the training keys receive
one entry each, so the final tabular conversion pd.DataFrame.from_dict
raises on lists of unequal length and train returns nothing.  With a
validation loader supplied, both training_loss and validation_loss receive
one entry per epoch, as the claim states for that half. -/
theorem train_validation_keys_unconditional :
    train false funcsAcc 1 data0 (mkey "validation" "accuracy") = some [] ∧
    train false funcsAcc 1 data0 (mkey "training" "loss") = some [MVal.val 0] ∧
    train false funcsAcc 1 data0 (mkey "training" "accuracy") = some [MVal.val 1] ∧
    trainOutput false funcsAcc 1 data0 = none ∧
    train true funcsAcc 1 data0 (mkey "training" "loss") = some [MVal.val 0] ∧
    train true funcsAcc 1 data0 (mkey "validation" "loss") = some [MVal.val 0] :=
  ⟨rfl, rfl, rfl, rfl, rfl, rfl⟩

theorem filter_fst_eq_singleton {name : String} {f : ScoreFn} :
    ∀ (funcs : List (String × ScoreFn)), (name, f) ∈ funcs →
      (funcs.map Prod.fst).Nodup →
      funcs.filter (fun nf => nf.1 = name) = [(name, f)] := by
  intro funcs
  induction funcs with
  | nil =>
    intro h
    simp at h
  | cons g gs ih =>
    intro hmem hnd
    rw [List.map_cons, List.nodup_cons] at hnd
    rcases List.mem_cons.mp hmem with rfl | hmem2
    · rw [List.filter_cons_of_pos (by simp)]
      rw [List.filter_eq_nil_iff.mpr ?_]
      · intro p hp
        simp only [decide_eq_true_eq]
        intro hfst
        have hmm := List.mem_map_of_mem Prod.fst hp
        rw [hfst] at hmm
        exact hnd.1 hmm
    · have hg : ¬ (g.1 = name) := by
        intro h
        exact hnd.1 (h ▸ List.mem_map_of_mem Prod.fst hmem2)
      rw [List.filter_cons_of_neg (by simpa using hg)]
      exact ih hmem2 hnd.2

theorem scoreContrib_key_of_mem {funcs : List (String × ScoreFn)} {name : String}
    {f : ScoreFn} (pfx : String) (yt yp : List ℚ)
    (hmem : (name, f) ∈ funcs) (hnd : (funcs.map Prod.fst).Nodup) :
    scoreContrib funcs pfx yt yp (mkey pfx name) = [scoreRecord f yt yp] := by
  rw [scoreContrib]
  rw [List.filter_congr (fun x _ => ?_), filter_fst_eq_singleton funcs hmem hnd]
  · rfl
  · show (decide (mkey pfx x.1 = mkey pfx name)) = decide (x.1 = name)
    exact decide_eq_decide.mpr ⟨fun h => mkey_right_inj h, fun h => by rw [h]⟩

theorem scoreContrib_eq_nil_of_ne {funcs : List (String × ScoreFn)}
    {pfx k : String} (yt yp : List ℚ) (h : ∀ nf ∈ funcs, mkey pfx nf.1 ≠ k) :
    scoreContrib funcs pfx yt yp k = [] := by
  rw [scoreContrib, List.filter_eq_nil_iff.mpr (fun a ha => by simp [h a ha])]
  rfl

theorem rangeContrib_of_single {funcs : List (String × ScoreFn)} {hasVal : Bool}
    {data : ℕ → EpochData} {k : String} (g : ℕ → MVal)
    (hsingle : ∀ e, epochContrib funcs hasVal data e k = [g e]) :
    ∀ (n start : ℕ), rangeContrib funcs hasVal data start n k
      = (List.range n).map (fun e => g (start + e)) := by
  intro n
  induction n with
  | zero => intro start; rfl
  | succ m ih =>
    intro start
    rw [show rangeContrib funcs hasVal data start (m + 1) k
        = epochContrib funcs hasVal data start k
          ++ rangeContrib funcs hasVal data (start + 1) m k from rfl]
    rw [hsingle, ih, List.range_succ_eq_map]
    simp only [List.map_cons, List.map_map, List.singleton_append, Nat.add_zero]
    refine congrArg _ (List.map_congr_left (fun a _ => ?_))
    show g (start + 1 + a) = g (start + (a + 1))
    exact congrArg g (by omega)

/-- Claim C9: every configured named scoring function is recorded once per
epoch under the key training_name; when it raises on the accumulated labels
of some epoch, the per-metric try/except records the not-a-number sentinel
for that metric in that epoch; every epoch is recorded for every configured
metric (the characterization below covers all epochs and all metrics), the
loss of every epoch is still recorded, and no failure propagates (train
totally produces its results table).  Hypotheses: the configured scoring
names are distinct and none is the reserved name loss, matching the
source, where score_funcs is a dict keyed by name disjoint from the loss
keys. -/
theorem train_scoring_failure_recorded
    (funcs : List (String × ScoreFn)) (hasVal : Bool) (epochs : ℕ)
    (data : ℕ → EpochData) (name : String) (f : ScoreFn)
    (hmem : (name, f) ∈ funcs)
    (hnd : (funcs.map Prod.fst).Nodup)
    (hnl : ∀ n ∈ funcs.map Prod.fst, n ≠ "loss") :
    ∃ l, train hasVal funcs epochs data (mkey "training" name) = some l ∧
      l.length = epochs ∧
      (∀ e, e < epochs → l[e]? = some (scoreRecord f (data e).ytTr (data e).ypTr)) ∧
      (∀ e, e < epochs → f (data e).ytTr (data e).ypTr = none → l[e]? = some MVal.nan) ∧
      ∃ ll, train hasVal funcs epochs data (mkey "training" "loss") = some ll ∧
        ll.length = epochs := by
  have hnamene : name ≠ "loss" := hnl name (List.mem_map_of_mem Prod.fst hmem)
  have hcontrib : ∀ e, epochContrib funcs hasVal data e (mkey "training" name)
      = [scoreRecord f (data e).ytTr (data e).ypTr] := by
    intro e
    rw [epochContrib]
    rw [scoreContrib_key_of_mem "training" (data e).ytTr (data e).ypTr hmem hnd]
    rw [if_neg (fun h => hnamene (mkey_right_inj h))]
    rw [if_neg (Ne.symm (epoch_time_ne_mkey_training name))]
    cases hasVal with
    | false => simp
    | true =>
      rw [scoreContrib_eq_nil_of_ne (data e).ytVal (data e).ypVal
        (fun nf _ => Ne.symm (mkey_training_ne_validation name nf.1))]
      rw [if_neg (mkey_training_ne_validation name "loss")]
      simp
  have hlookup := train_lookup hasVal funcs epochs data (mkey "training" name)
  have hinit : initResults (toTrack hasVal (funcs.map Prod.fst))
      (mkey "training" name) = some [] := by
    have hmm : name ∈ funcs.map Prod.fst := List.mem_map_of_mem Prod.fst hmem
    have hmem2 : mkey "training" name ∈ toTrack hasVal (funcs.map Prod.fst) := by
      rw [toTrack]
      refine List.mem_append.mpr (Or.inr ?_)
      exact List.mem_flatMap.mpr ⟨name, hmm, by simp⟩
    show (if _ ∈ _ then some [] else none) = some []
    rw [if_pos hmem2]
  rw [hinit, rangeContrib_of_single _ hcontrib epochs 0] at hlookup
  simp only [List.nil_append, Nat.zero_add] at hlookup
  refine ⟨_, hlookup, ?_, ?_, ?_, ?_⟩
  · simp
  · intro e he
    simp [List.getElem?_map, List.getElem?_range he]
  · intro e he hf
    simp [List.getElem?_map, List.getElem?_range he, scoreRecord, hf]
  · have hcontribL : ∀ e, epochContrib funcs hasVal data e (mkey "training" "loss")
        = [MVal.val (data e).lossTr] := by
      intro e
      rw [epochContrib]
      rw [scoreContrib_eq_nil_of_ne (data e).ytTr (data e).ypTr
        (fun nf hnf h => hnl nf.1 (List.mem_map_of_mem Prod.fst hnf) (mkey_right_inj h))]
      rw [if_pos rfl]
      rw [if_neg (Ne.symm (epoch_time_ne_mkey_training "loss"))]
      cases hasVal with
      | false => simp
      | true =>
        rw [scoreContrib_eq_nil_of_ne (data e).ytVal (data e).ypVal
          (fun nf _ => Ne.symm (mkey_training_ne_validation "loss" nf.1))]
        rw [if_neg (mkey_training_ne_validation "loss" "loss")]
        simp
    have hlookupL := train_lookup hasVal funcs epochs data (mkey "training" "loss")
    have hinitL : initResults (toTrack hasVal (funcs.map Prod.fst))
        (mkey "training" "loss") = some [] := by
      have hmemL : mkey "training" "loss" ∈ toTrack hasVal (funcs.map Prod.fst) := by
        rw [toTrack]
        exact List.mem_append.mpr (Or.inl (List.mem_append.mpr (Or.inl (by simp))))
      show (if _ ∈ _ then some [] else none) = some []
      rw [if_pos hmemL]
    rw [hinitL, rangeContrib_of_single _ hcontribL epochs 0] at hlookupL
    exact ⟨_, hlookupL, by simp⟩

/-- Claim C9 witness: an always-raising scoring function named acc, two
epochs, validation loader present; its training_acc column is recorded as
NaN in both epochs and the loss column still has both entries. -/
theorem train_scoring_failure_recorded_witness :
    ∃ l, train true funcsFail 2 data0 (mkey "training" "acc") = some l ∧
      l.length = 2 ∧
      (∀ e, e < 2 → l[e]? = some (scoreRecord failScore (data0 e).ytTr (data0 e).ypTr)) ∧
      (∀ e, e < 2 → failScore (data0 e).ytTr (data0 e).ypTr = none →
        l[e]? = some MVal.nan) ∧
      ∃ ll, train true funcsFail 2 data0 (mkey "training" "loss") = some ll ∧
        ll.length = 2 :=
  train_scoring_failure_recorded funcsFail true 2 data0 "acc" failScore
    (by simp [funcsFail]) (by simp [funcsFail]) (by simp [funcsFail])
